import Mathlib

/-
Verification of the logging configuration module
(src/prefect/logging/configuration.py).

The embedding models:
  - nested YAML-style configuration mappings (CMap / CVal / YVal),
  - the flatten / unflatten helpers (dict_to_flatdict / flatdict_to_dict,
    modelled from the spec since prefect.utilities.collections is not part
    of the provided sources),
  - the environment-variable key derivation (to_envvar and the expression
    inside load_logging_config),
  - the settings-reference pattern (the interpolated_settings regex),
  - load_logging_config and setup_logging, with the file system, the YAML
    parser, the environment and the settings object supplied as explicit
    parameters, and the Python logging registry modelled as an association
    list of logger states.

Machine integers do not occur; Python strings are modelled as Lean strings
restricted to their character lists.  to_envvar's character class is the
ASCII class [^0-9a-zA-Z] its regex names.  The settings-reference regex
uses the Unicode word class [\w\d_]; that class is not reproduced here but
carried as an explicit parameter (wc) of the matcher, and the anchored
match includes Python's behaviour of the $ anchor matching just before a
string-final newline.
-/

/-- Errors that can escape the module: a missing file (FileNotFoundError),
malformed content (yaml parse error), a missing dict key (KeyError), and the
AttributeError Python would raise when flatdict_to_dict descends through a
non-dict value. -/
inductive Err where
  | notFound : Err
  | parseError : Err
  | keyError : String → Err
  | attributeError : Err
deriving DecidableEq, Repr

/-- Scalar (leaf) values of the configuration tree: strings, integers,
booleans and Python None (also the result of a failed settings lookup). -/
inductive YVal where
  | str : String → YVal
  | int : Int → YVal
  | bool : Bool → YVal
  | none : YVal
deriving DecidableEq, Repr

/-- A nested string-keyed mapping whose values are either scalar leaves or
further mappings: the shape of a parsed logging.yml document (RawConfig in
the spec).  Entry order is significant, as in a Python dict. -/
inductive CMap where
  | nil : CMap
  | leafCons : String → YVal → CMap → CMap
  | nodeCons : String → CMap → CMap → CMap
deriving DecidableEq, Repr

/-- A value stored under a key of a CMap: a scalar leaf or a sub-mapping. -/
inductive CVal where
  | leaf : YVal → CVal
  | node : CMap → CVal
deriving DecidableEq, Repr

def CMap.lookup : CMap → String → Option CVal
  | .nil, _ => Option.none
  | .leafCons k v r, key => if k = key then Option.some (CVal.leaf v) else r.lookup key
  | .nodeCons k m r, key => if k = key then Option.some (CVal.node m) else r.lookup key

def CMap.hasKey : CMap → String → Bool
  | .nil, _ => false
  | .leafCons k _ r, key => k == key || r.hasKey key
  | .nodeCons k _ r, key => k == key || r.hasKey key

/-- Prepend one key/value entry, choosing the constructor that matches the
kind of the value. -/
def CMap.consVal (k : String) : CVal → CMap → CMap
  | .leaf v, m => CMap.leafCons k v m
  | .node s, m => CMap.nodeCons k s m

/-- Python dict assignment d[k] = v: replace in place if the key exists,
otherwise append at the end. -/
def CMap.setKey : CMap → String → CVal → CMap
  | .nil, k, v => CMap.consVal k v CMap.nil
  | .leafCons k' v' r, k, v =>
      if k' = k then CMap.consVal k' v r else CMap.leafCons k' v' (r.setKey k v)
  | .nodeCons k' s' r, k, v =>
      if k' = k then CMap.consVal k' v r else CMap.nodeCons k' s' (r.setKey k v)

def CMap.append : CMap → CMap → CMap
  | .nil, m => m
  | .leafCons k v r, m => CMap.leafCons k v (r.append m)
  | .nodeCons k s r, m => CMap.nodeCons k s (r.append m)

def CMap.entries : CMap → List (String × CVal)
  | .nil => []
  | .leafCons k v r => (k, CVal.leaf v) :: r.entries
  | .nodeCons k s r => (k, CVal.node s) :: r.entries

def CMap.isNil : CMap → Bool
  | .nil => true
  | _ => false

/-- Keys are unique at every level, the invariant every mapping obtained
from a Python dict satisfies. -/
def CMap.nodupKeys : CMap → Bool
  | .nil => true
  | .leafCons k _ r => !r.hasKey k && r.nodupKeys
  | .nodeCons k s r => !r.hasKey k && s.nodupKeys && r.nodupKeys

/-- Keys unique at every level and no empty sub-mapping below the top
level: the trees on which flattening loses no information. -/
def CMap.wfB : CMap → Bool
  | .nil => true
  | .leafCons k _ r => !r.hasKey k && r.wfB
  | .nodeCons k s r => !r.hasKey k && !s.isNil && s.wfB && r.wfB

/-- Modelled from the spec: dict_to_flatdict from
prefect.utilities.collections (not among the provided sources).  Depth-first
flattening of a nested mapping into (path, leaf value) pairs; a sub-mapping
contributes the flattening of its own entries under the extended path. -/
def flattenMap : List String → CMap → List (List String × YVal)
  | _, .nil => []
  | pre, .leafCons k v rest => (pre ++ [k], v) :: flattenMap pre rest
  | pre, .nodeCons k sub rest => flattenMap (pre ++ [k]) sub ++ flattenMap pre rest

def dict_to_flatdict (m : CMap) : List (List String × YVal) :=
  flattenMap [] m

/-- Modelled from the spec: the per-entry step of flatdict_to_dict from
prefect.utilities.collections (not among the provided sources).  Walks the
path with setdefault semantics, creating empty sub-mappings for missing
intermediate keys, and assigns the leaf at the last key; descending through
an existing leaf is the case where Python would raise, hence Option.none. -/
def insertPath : CMap → List String → YVal → Option CMap
  | _, [], _ => Option.none
  | m, [k], v => Option.some (m.setKey k (CVal.leaf v))
  | m, k :: k' :: rest, v =>
      match m.lookup k with
      | Option.some (CVal.node sub) =>
          (insertPath sub (k' :: rest) v).map (fun s => m.setKey k (CVal.node s))
      | Option.some (CVal.leaf _) => Option.none
      | Option.none =>
          (insertPath CMap.nil (k' :: rest) v).map (fun s => m.setKey k (CVal.node s))

def insertStep (a : CMap) (kv : List String × YVal) : Option CMap :=
  insertPath a kv.1 kv.2

/-- Modelled from the spec: flatdict_to_dict from
prefect.utilities.collections (not among the provided sources).  Reassembles
a nested mapping by inserting every (path, value) entry in order. -/
def flatdict_to_dict (l : List (List String × YVal)) : Option CMap :=
  l.foldlM insertStep CMap.nil

/-- The character class of the regex [^0-9a-zA-Z] used by to_envvar. -/
def isAlnumAscii (c : Char) : Bool := c.isAlpha || c.isDigit

/-- The replacement loop of to_envvar = partial(re.sub, [^0-9a-zA-Z]+, _):
the flag records whether the previous character was part of a run of
non-alphanumeric characters, so each maximal run emits a single '_'. -/
def to_envvar_go : Bool → List Char → List Char
  | _, [] => []
  | inRun, c :: cs =>
      if isAlnumAscii c then c :: to_envvar_go false cs
      else if inRun then to_envvar_go true cs
      else '_' :: to_envvar_go true cs

/-- to_envvar = partial(re.sub, re.compile(r"[^0-9a-zA-Z]+"), "_"):
replace every maximal run of non-alphanumeric characters by one '_'. -/
def to_envvar (s : String) : String := String.mk (to_envvar_go false s.data)

/-- Python str.upper restricted to ASCII, the only case exercised by the
derived environment keys. -/
def py_upper (s : String) : String := String.mk (s.data.map Char.toUpper)

/-- Python "sep".join(parts). -/
def py_join (sep : String) : List String → String
  | [] => ""
  | [x] => x
  | x :: xs => x ++ sep ++ py_join sep xs

/-- The environment lookup key computed inside load_logging_config:
to_envvar((settings.Config.env_prefix + "_".join(key_tup)).upper()). -/
def env_key (env_pfx : String) (key_tup : List String) : String :=
  to_envvar (py_upper (env_pfx ++ py_join "_" key_tup))

def lbrace : Char := Char.ofNat 123
def rbrace : Char := Char.ofNat 125

/-- The two-character opening-brace sequence, written without literal brace
characters. -/
def lb2 : String := String.mk [lbrace, lbrace]

/-- The two-character closing-brace sequence. -/
def rb2 : String := String.mk [rbrace, rbrace]

/-- The newline character, written without an escape sequence. -/
def nl : Char := Char.ofNat 10

/-- A one-character string holding a newline. -/
def nl1 : String := String.mk [nl]

/-- The ASCII part of the regex word class [\w\d_]: ASCII alphanumerics
and the underscore.  Python's \w is the full Unicode word class, of which
this is the restriction to ASCII; the two agree on every ASCII character,
so this function instantiates the word-class parameter in the closed
counterexample and witness theorems, whose strings are all ASCII. -/
def ascii_word (c : Char) : Bool := isAlnumAscii c || c = '_'

/-- val.startswith of the two-character opening-brace sequence. -/
def starts_with_two_lbrace (s : String) : Bool :=
  match s.data with
  | c1 :: c2 :: _ => c1 == lbrace && c2 == lbrace
  | _ => false

/-- Python's $ anchor (without MULTILINE) matches at the end of the string
or just before a newline at the end of the string, so an anchored match
sees the string with one final newline removed, when there is one. -/
def strip_trailing_newline (cs : List Char) : List Char :=
  if cs.getLast? = Option.some nl then cs.dropLast else cs

/-- The candidate capture group of the anchored brace regex: the matched
body minus its first two and last two characters. -/
def braces_mid (cs : List Char) : List Char := (cs.drop 2).dropLast.dropLast

/-- Full match of the interpolated_settings regex ^ lb lb ([\w\d_]+) rb rb $
on a character list: the matched body (the string, minus one final newline
if present, per the $ anchor) must be two opening braces, a non-empty run
of word characters, then two closing braces.  The word class [\w\d_] is
Python's Unicode one; it is not reproduced here and enters as the
parameter wc.  Returns the capture group. -/
def match_braces (wc : Char → Bool) (cs : List Char) : Option (List Char) :=
  if strip_trailing_newline cs
        = lbrace :: lbrace :: (braces_mid (strip_trailing_newline cs) ++ [rbrace, rbrace]) ∧
      braces_mid (strip_trailing_newline cs) ≠ [] ∧
      (braces_mid (strip_trailing_newline cs)).all wc = true then
    Option.some (braces_mid (strip_trailing_newline cs))
  else Option.none

/-- interpolated_settings.match(val): the anchored regex over the whole
string, returning the captured identifier.  wc is the regex engine's
interpretation of the word class [\w\d_]. -/
def interpolated_settings_match (wc : Char → Bool) (s : String) : Option String :=
  (match_braces wc s.data).map String.mk

/-- The settings-reference step of the loop body of load_logging_config:
if the current value is a string beginning with two opening braces and
matching the anchored interpolated_settings regex, replace it by
getattr(settings, key, None). -/
def apply_interp (wc : Char → Bool) (attrs : String → Option YVal) (v : YVal) : YVal :=
  match v with
  | YVal.str s =>
      if starts_with_two_lbrace s then
        match interpolated_settings_match wc s with
        | Option.some k => (attrs k).getD YVal.none
        | Option.none => v
      else v
  | _ => v

/-- The whole loop body of load_logging_config for one flattened entry:
the environment override (applied when the variable is set and non-empty)
followed by the settings-reference step on the resulting value. -/
def resolve_leaf (wc : Char → Bool) (env_pfx : String) (env : String → Option String)
    (attrs : String → Option YVal) (key_tup : List String) (v : YVal) : YVal :=
  let val :=
    match env (env_key env_pfx key_tup) with
    | Option.some s => if s = "" then v else YVal.str s
    | Option.none => v
  apply_interp wc attrs val

/-- The surface of the LoggingSettings object consumed by the module:
Config.env_prefix (written env_pfx here), settings_path, attribute lookup
for settings references (getattr with the absent case as Option.none), and
get_extra_loggers(). -/
structure LoggingSettings where
  env_pfx : String
  settings_path : String
  attrs : String → Option YVal
  extra_loggers : List String

/-- The external collaborators of one call: the file system (Path.exists /
read_text), the YAML parser, os.environ, and the regex engine's Unicode
word class [\w\d_] (wclass).  The parser is modelled from the spec:
yaml.safe_load is an external library call, and the spec makes it fail
with a parse error whenever the content is not a valid mapping-shaped
serialization. -/
structure World where
  fs : String → Option String
  parse : String → Except Err CMap
  env : String → Option String
  wclass : Char → Bool

def DEFAULT_LOGGING_SETTINGS_PATH : String := "logging.yml"

/-- path.read_text(): the content when the file exists, FileNotFoundError
otherwise. -/
def read_text (w : World) (p : String) : Except Err String :=
  match w.fs p with
  | Option.some t => Except.ok t
  | Option.none => Except.error Err.notFound

/-- load_logging_config(path, settings): parse the file, flatten, run the
override/interpolation loop on every leaf, reassemble. -/
def load_logging_config (w : World) (s : LoggingSettings) (path : String) :
    Except Err CMap :=
  match read_text w path with
  | Except.error e => Except.error e
  | Except.ok txt =>
    match w.parse txt with
    | Except.error e => Except.error e
    | Except.ok config =>
      let flat := dict_to_flatdict config
      let flat2 := flat.map
        (fun kv => (kv.1, resolve_leaf w.wclass s.env_pfx w.env s.attrs kv.1 kv.2))
      match flatdict_to_dict flat2 with
      | Option.some m => Except.ok m
      | Option.none => Except.error Err.attributeError

/-- The path chosen by setup_logging: settings.settings_path when it
exists, otherwise the bundled default. -/
def chosen_path (w : World) (s : LoggingSettings) : String :=
  if (w.fs s.settings_path).isSome then s.settings_path
  else DEFAULT_LOGGING_SETTINGS_PATH

def resolve_config (w : World) (s : LoggingSettings) : Except Err CMap :=
  load_logging_config w s (chosen_path w s)

/-- The state of one logger in the shared logging registry: handler list
(handlers modelled by numeric identifiers), level, propagation flag. -/
structure LoggerState where
  handlers : List Nat
  level : Nat
  propagate : Bool
deriving DecidableEq, Repr

/-- logging.NOTSET. -/
def NOTSET : Nat := 0

/-- A logger never configured is created on demand with no handlers, level
NOTSET and propagation on. -/
def defaultLogger : LoggerState := { handlers := [], level := NOTSET, propagate := true }

def getLoggerState (lgs : List (String × LoggerState)) (name : String) : LoggerState :=
  match lgs.find? (fun p => p.1 == name) with
  | Option.some p => p.2
  | Option.none => defaultLogger

def setLoggerState : List (String × LoggerState) → String → LoggerState →
    List (String × LoggerState)
  | [], name, st => [(name, st)]
  | p :: rest, name, st =>
      if p.1 == name then (p.1, st) :: rest else p :: setLoggerState rest name st

/-- Logger.addHandler: appends the handler unless it is already attached. -/
def addHandler (st : LoggerState) (h : Nat) : LoggerState :=
  if h ∈ st.handlers then st else { st with handlers := st.handlers ++ [h] }

/-- One iteration of the inner handler loop of setup_logging: add the
handler; if the target's level is NOTSET, set it to the template's level;
set the propagation flag to the template's. -/
def copy_step (extra : LoggerState) (s : LoggerState) (h : Nat) : LoggerState :=
  let s1 := addHandler s h
  let s2 := if s1.level = NOTSET then { s1 with level := extra.level } else s1
  { s2 with propagate := extra.propagate }

/-- The body run for one extra logger: the inner loop over the template's
handlers (note that the level and propagation copies happen inside this
loop, so nothing at all is copied when the template has no handlers). -/
def copy_one (extra st : LoggerState) : LoggerState :=
  extra.handlers.foldl (copy_step extra) st

def prefect_extra_name : String := "prefect.extra"

/-- The shared logging subsystem: the registry of loggers, plus the record
of configurations handed to logging.config.dictConfig. -/
structure LogSys where
  loggers : List (String × LoggerState)
  applied : List CMap
deriving DecidableEq

/-- Modelled from the spec: logging.config.dictConfig is the external bulk
"apply structured logging configuration" call; its effect on individual
loggers is outside this module, so it is modelled as recording the applied
configuration. -/
def dictConfig (sys : LogSys) (c : CMap) : LogSys :=
  { sys with applied := sys.applied ++ [c] }

/-- The extra-loggers loop of setup_logging: the 'prefect.extra' template is
fetched once, then every name from settings.get_extra_loggers() is processed
in order. -/
def copy_extra_loggers (names : List String) (sys : LogSys) : LogSys :=
  let extra := getLoggerState sys.loggers prefect_extra_name
  { sys with
      loggers := names.foldl
        (fun lgs n => setLoggerState lgs n (copy_one extra (getLoggerState lgs n)))
        sys.loggers }

/-- The per-process state touched by setup_logging: the
PROCESS_LOGGING_CONFIG global (None at process start), the logging
subsystem, and the warnings emitted so far (each recorded as the diff
mapping interpolated into the warning message). -/
structure SetupState where
  process_config : Option CMap
  sys : LogSys
  warnings : List CMap
deriving DecidableEq

/-- Python truthiness of PROCESS_LOGGING_CONFIG: false for None and for an
empty dict. -/
def truthy : Option CMap → Bool
  | Option.some (CMap.leafCons _ _ _) => true
  | Option.some (CMap.nodeCons _ _ _) => true
  | _ => false

/-- The dict comprehension of setup_logging:
{key: value for key, value in config.items() if PROCESS_LOGGING_CONFIG[key] != value}.
Subscripting the stored dict with a key it does not contain raises KeyError. -/
def config_diff (stored : CMap) : CMap → Except Err CMap
  | .nil => Except.ok CMap.nil
  | .leafCons k v rest =>
      match stored.lookup k with
      | Option.none => Except.error (Err.keyError k)
      | Option.some sv =>
        match config_diff stored rest with
        | Except.error e => Except.error e
        | Except.ok tail =>
            Except.ok (if sv = CVal.leaf v then tail else CMap.leafCons k v tail)
  | .nodeCons k s rest =>
      match stored.lookup k with
      | Option.none => Except.error (Err.keyError k)
      | Option.some sv =>
        match config_diff stored rest with
        | Except.error e => Except.error e
        | Except.ok tail =>
            Except.ok (if sv = CVal.node s then tail else CMap.nodeCons k s tail)

/-- The first-apply branch of setup_logging: dictConfig, the extra-loggers
loop, then the assignment to PROCESS_LOGGING_CONFIG. -/
def apply_branch (s : LoggingSettings) (st : SetupState) (config : CMap) : SetupState :=
  { st with
      sys := copy_extra_loggers s.extra_loggers (dictConfig st.sys config),
      process_config := Option.some config }

/-- setup_logging(settings): resolve the configuration, then either warn
(when the process-wide config is truthy and the diff is non-empty), silently
return (truthy, empty diff), or apply and record (falsy stored config). -/
def setup_logging (w : World) (s : LoggingSettings) (st : SetupState) :
    Except Err SetupState :=
  match resolve_config w s with
  | Except.error e => Except.error e
  | Except.ok config =>
    if truthy st.process_config then
      match config_diff (st.process_config.getD CMap.nil) config with
      | Except.error e => Except.error e
      | Except.ok diff =>
          if diff = CMap.nil then Except.ok st
          else Except.ok { st with warnings := st.warnings ++ [diff] }
    else
      Except.ok (apply_branch s st config)

/-- A second formulation of "replace every maximal run of non-alphanumeric
characters with a single underscore", following the spec's words for the
EnvOverrideKey derivation: on meeting a non-alphanumeric character, emit
one '_' and skip the rest of the run.  Used to check that to_envvar
implements that replacement. -/
def squash_spec : List Char → List Char
  | [] => []
  | c :: cs =>
      if isAlnumAscii c then c :: squash_spec cs
      else '_' :: squash_spec (cs.dropWhile (fun d => !isAlnumAscii d))
termination_by l => l.length
decreasing_by
  · simp only [List.length_cons]
    omega
  · simp only [List.length_cons]
    exact Nat.lt_succ_of_le ((List.dropWhile_sublist _).length_le)

/-- The EnvOverrideKey derivation in the order the spec states it: join the
segments with '_', upper-case, prefix with the configured prefix string,
then replace every maximal non-alphanumeric run with '_'. -/
def spec_env_key (env_pfx : String) (key_tup : List String) : String :=
  String.mk (squash_spec (env_pfx ++ py_upper (py_join "_" key_tup)).data)

/- Concrete objects used by the closed counterexample and witness
theorems below. -/

/-- An environment whose every variable is set to a settings-reference
string. -/
def env_c1 : String → Option String := fun _ => Option.some (lb2 ++ "x" ++ rb2)

/-- A settings object exposing attribute x = "W" and nothing else. -/
def attrs_c1 : String → Option YVal :=
  fun k => if k == "x" then Option.some (YVal.str "W") else Option.none

/-- An environment whose every variable is set to the plain string V. -/
def env_w1 : String → Option String := fun _ => Option.some "V"

/-- A settings object with no attributes. -/
def attrs_none : String → Option YVal := fun _ => Option.none

/-- An empty environment. -/
def env_off : String → Option String := fun _ => Option.none

/-- A nested mapping holding one empty sub-mapping: its keys are unique at
every level and it has no leaf at all, yet flattening erases it. -/
def m_empty_node : CMap := CMap.nodeCons "a" CMap.nil CMap.nil

/-- A small well-formed configuration tree. -/
def m_round : CMap :=
  CMap.nodeCons "loggers" (CMap.leafCons "level" (YVal.str "INFO") CMap.nil)
    (CMap.leafCons "version" (YVal.int 1) CMap.nil)

/-- Settings with no extra loggers, used where only the resolution path
matters. -/
def s_plain : LoggingSettings :=
  { env_pfx := "P", settings_path := "path", attrs := fun _ => Option.none,
    extra_loggers := [] }

/-- A logging registry whose prefect.extra template has no handlers but a
non-default level and propagation flag. -/
def sys_c4 : LogSys :=
  { loggers := [(prefect_extra_name, { handlers := [], level := 10, propagate := false })],
    applied := [] }

/-- A logging registry whose prefect.extra template has two handlers,
level 10 and propagation off. -/
def sys_w4 : LogSys :=
  { loggers := [(prefect_extra_name, { handlers := [7, 8], level := 10, propagate := false })],
    applied := [] }

/-- The configuration stored by a hypothetical first setup call. -/
def stored_c2 : CMap := CMap.leafCons "a" (YVal.int 1) CMap.nil

/-- Process state after that first call (registry content irrelevant). -/
def st_c2 : SetupState :=
  { process_config := Option.some stored_c2, sys := { loggers := [], applied := [] },
    warnings := [] }

/-- A world whose configuration file resolves to a mapping that contains
the stored key a with the stored value, plus a new top-level key b. -/
def w_c2 : World :=
  { fs := fun _ => Option.some "cfg",
    parse := fun _ =>
      Except.ok (CMap.leafCons "a" (YVal.int 1) (CMap.leafCons "b" (YVal.int 2) CMap.nil)),
    env := fun _ => Option.none, wclass := ascii_word }

/-- A world whose configuration file resolves to the empty mapping. -/
def w_empty : World :=
  { fs := fun _ => Option.some "cfg", parse := fun _ => Except.ok CMap.nil,
    env := fun _ => Option.none, wclass := ascii_word }

/-- Fresh process state: nothing configured yet. -/
def st_fresh : SetupState :=
  { process_config := Option.none, sys := { loggers := [], applied := [] },
    warnings := [] }

/-- State after a first apply of the empty configuration. -/
def st_after_empty : SetupState :=
  { process_config := Option.some CMap.nil,
    sys := { loggers := [], applied := [CMap.nil] }, warnings := [] }

/-- State after the empty configuration has been applied twice. -/
def st_after_empty2 : SetupState :=
  { process_config := Option.some CMap.nil,
    sys := { loggers := [], applied := [CMap.nil, CMap.nil] }, warnings := [] }

/-- A one-leaf configuration. -/
def c_w5 : CMap := CMap.leafCons "a" (YVal.str "x") CMap.nil

/-- A world whose configuration file resolves to c_w5. -/
def w_w5 : World :=
  { fs := fun _ => Option.some "cfg", parse := fun _ => Except.ok c_w5,
    env := fun _ => Option.none, wclass := ascii_word }

/-- Process state holding c_w5 as the applied configuration. -/
def st_w5 : SetupState :=
  { process_config := Option.some c_w5, sys := { loggers := [], applied := [c_w5] },
    warnings := [] }

/-- A stored two-key configuration. -/
def stored_c9 : CMap := CMap.leafCons "a" (YVal.int 1) (CMap.leafCons "b" (YVal.int 2) CMap.nil)

/-- A world resolving to only the first of the two stored keys, with the
stored value. -/
def w_c9 : World :=
  { fs := fun _ => Option.some "cfg",
    parse := fun _ => Except.ok (CMap.leafCons "a" (YVal.int 1) CMap.nil),
    env := fun _ => Option.none, wclass := ascii_word }

/-- Process state holding stored_c9. -/
def st_c9 : SetupState :=
  { process_config := Option.some stored_c9, sys := { loggers := [], applied := [stored_c9] },
    warnings := [] }

/-- Process state whose stored configuration is the empty mapping. -/
def st_empty_stored : SetupState :=
  { process_config := Option.some CMap.nil, sys := { loggers := [], applied := [] },
    warnings := [] }

/-- A world with no files at all. -/
def w_nofs : World :=
  { fs := fun _ => Option.none, parse := fun _ => Except.ok CMap.nil,
    env := fun _ => Option.none, wclass := ascii_word }

/-- A world whose single file exists but whose content does not parse as a
mapping. -/
def w_badparse : World :=
  { fs := fun _ => Option.some "bad",
    parse := fun _ => Except.error Err.parseError, env := fun _ => Option.none,
    wclass := ascii_word }



theorem data_append (a b : String) : (a ++ b).data = a.data ++ b.data := rfl

theorem str_ext (a b : String) (h : a.data = b.data) : a = b := by
  cases a; cases b; exact congrArg String.mk h

theorem mk_data (s : String) : String.mk s.data = s := by cases s; rfl

theorem str_ne_empty_iff (s : String) : s ≠ "" ↔ s.data ≠ [] := by
  constructor
  · intro h hc
    exact h (str_ext s "" hc)
  · intro h hc
    exact h (congrArg String.data hc)

theorem compute_mid (mid : List Char) :
    braces_mid (lbrace :: lbrace :: (mid ++ [rbrace, rbrace])) = mid := by
  unfold braces_mid
  have h2 : (lbrace :: lbrace :: (mid ++ [rbrace, rbrace])).drop 2 = mid ++ [rbrace, rbrace] := rfl
  rw [h2]
  have h3 : mid ++ [rbrace, rbrace] = (mid ++ [rbrace]) ++ [rbrace] := by
    simp [List.append_assoc]
  rw [h3, List.dropLast_concat, List.dropLast_concat]

theorem rbrace_ne_nl : rbrace ≠ nl := by decide

theorem braces_shape_getLast (mid : List Char) :
    (lbrace :: lbrace :: (mid ++ [rbrace, rbrace])).getLast? = Option.some rbrace := by
  have h : lbrace :: lbrace :: (mid ++ [rbrace, rbrace])
      = (lbrace :: lbrace :: (mid ++ [rbrace])) ++ [rbrace] := by
    simp
  rw [h, List.getLast?_concat]

theorem strip_eq_iff (cs X : List Char) (hX : X.getLast? ≠ Option.some nl) :
    strip_trailing_newline cs = X ↔ (cs = X ∨ cs = X ++ [nl]) := by
  unfold strip_trailing_newline
  split_ifs with h
  · constructor
    · intro hd
      right
      have hne : cs ≠ [] := by
        intro hc
        rw [hc] at h
        exact Option.noConfusion h
      have hlast : cs.getLast hne = nl := by
        rw [List.getLast?_eq_getLast cs hne] at h
        exact Option.some_inj.mp h
      have hcs := List.dropLast_append_getLast hne
      rw [hlast, hd] at hcs
      exact hcs.symm
    · intro hd
      rcases hd with hd | hd
      · rw [hd] at h
        exact absurd h hX
      · rw [hd, List.dropLast_concat]
  · constructor
    · intro hd
      exact Or.inl hd
    · intro hd
      rcases hd with hd | hd
      · exact hd
      · rw [hd, List.getLast?_concat] at h
        exact absurd rfl h

theorem match_braces_eq_some_iff (wc : Char → Bool) (cs mid : List Char) :
    match_braces wc cs = Option.some mid ↔
      ((cs = lbrace :: lbrace :: (mid ++ [rbrace, rbrace]) ∨
        cs = lbrace :: lbrace :: (mid ++ [rbrace, rbrace]) ++ [nl]) ∧
        mid ≠ [] ∧ mid.all wc = true) := by
  have hX : (lbrace :: lbrace :: (mid ++ [rbrace, rbrace])).getLast? ≠ Option.some nl := by
    rw [braces_shape_getLast]
    intro hc
    exact rbrace_ne_nl (Option.some_inj.mp hc)
  unfold match_braces
  split_ifs with h
  · obtain ⟨h1, h2, h3⟩ := h
    constructor
    · intro hs
      have hm : braces_mid (strip_trailing_newline cs) = mid := Option.some_inj.mp hs
      rw [hm] at h1 h2 h3
      exact ⟨(strip_eq_iff cs _ hX).mp h1, h2, h3⟩
    · intro ⟨g1, g2, g3⟩
      have hstrip : strip_trailing_newline cs
          = lbrace :: lbrace :: (mid ++ [rbrace, rbrace]) :=
        (strip_eq_iff cs _ hX).mpr g1
      have hm : braces_mid (strip_trailing_newline cs) = mid := by
        rw [hstrip, compute_mid]
      rw [hm]
  · constructor
    · intro hs
      exact absurd hs (by simp)
    · intro ⟨g1, g2, g3⟩
      exfalso
      apply h
      have hstrip : strip_trailing_newline cs
          = lbrace :: lbrace :: (mid ++ [rbrace, rbrace]) :=
        (strip_eq_iff cs _ hX).mpr g1
      have hm : braces_mid (strip_trailing_newline cs) = mid := by
        rw [hstrip, compute_mid]
      rw [hm]
      exact ⟨hstrip, g2, g3⟩

theorem str_append_assoc (a b c : String) : a ++ b ++ c = a ++ (b ++ c) := by
  apply str_ext
  simp [data_append, List.append_assoc]

theorem interp_match_eq_some_iff (wc : Char → Bool) (s id : String) :
    interpolated_settings_match wc s = Option.some id ↔
      ((s = lb2 ++ id ++ rb2 ∨ s = lb2 ++ id ++ rb2 ++ nl1) ∧ id ≠ "" ∧
        id.data.all wc = true) := by
  have hdata : (lb2 ++ id ++ rb2).data
      = lbrace :: lbrace :: (id.data ++ [rbrace, rbrace]) := by
    simp [data_append, lb2, rb2]
  have hdata2 : (lb2 ++ id ++ rb2 ++ nl1).data
      = lbrace :: lbrace :: (id.data ++ [rbrace, rbrace]) ++ [nl] := by
    simp [data_append, lb2, rb2, nl1]
  have hshape : (s = lb2 ++ id ++ rb2 ∨ s = lb2 ++ id ++ rb2 ++ nl1) ↔
      (s.data = lbrace :: lbrace :: (id.data ++ [rbrace, rbrace]) ∨
       s.data = lbrace :: lbrace :: (id.data ++ [rbrace, rbrace]) ++ [nl]) := by
    constructor
    · intro h
      rcases h with h | h
      · exact Or.inl (by rw [h, hdata])
      · exact Or.inr (by rw [h, hdata2])
    · intro h
      rcases h with h | h
      · exact Or.inl (str_ext s _ (by rw [h, hdata]))
      · exact Or.inr (str_ext s _ (by rw [h, hdata2]))
  unfold interpolated_settings_match
  constructor
  · intro h
    obtain ⟨mid, hm, hmk⟩ := Option.map_eq_some'.mp h
    have hmid : mid = id.data := by
      rw [← hmk]
    rw [hmid] at hm
    obtain ⟨h1, h2, h3⟩ := (match_braces_eq_some_iff wc s.data id.data).mp hm
    exact ⟨hshape.mpr h1, (str_ne_empty_iff id).mpr h2, h3⟩
  · intro ⟨h1, h2, h3⟩
    have hm : match_braces wc s.data = Option.some id.data := by
      apply (match_braces_eq_some_iff wc s.data id.data).mpr
      exact ⟨hshape.mp h1, (str_ne_empty_iff id).mp h2, h3⟩
    rw [hm]
    simp [mk_data]

theorem starts_lb2 (t : String) : starts_with_two_lbrace (lb2 ++ t) = true := by
  have hdata : (lb2 ++ t).data = lbrace :: lbrace :: t.data := by
    simp [data_append, lb2]
  unfold starts_with_two_lbrace
  rw [hdata]
  simp

theorem apply_interp_ref (wc : Char → Bool) (attrs : String → Option YVal)
    (id s : String) (hs : s = lb2 ++ id ++ rb2 ∨ s = lb2 ++ id ++ rb2 ++ nl1)
    (h2 : id ≠ "") (h3 : id.data.all wc = true) :
    apply_interp wc attrs (YVal.str s) = (attrs id).getD YVal.none := by
  have hm : interpolated_settings_match wc s = Option.some id :=
    (interp_match_eq_some_iff wc s id).mpr ⟨hs, h2, h3⟩
  have hsw : starts_with_two_lbrace s = true := by
    rcases hs with h | h
    · rw [h, str_append_assoc]
      exact starts_lb2 (id ++ rb2)
    · rw [h, str_append_assoc, str_append_assoc]
      exact starts_lb2 (id ++ (rb2 ++ nl1))
  unfold apply_interp
  dsimp only
  rw [hsw, hm]
  simp

theorem apply_interp_pass (wc : Char → Bool) (attrs : String → Option YVal) (s : String)
    (h : ∀ id, id ≠ "" → id.data.all wc = true →
      s ≠ lb2 ++ id ++ rb2 ∧ s ≠ lb2 ++ id ++ rb2 ++ nl1) :
    apply_interp wc attrs (YVal.str s) = YVal.str s := by
  have hm : interpolated_settings_match wc s = Option.none := by
    cases hmm : interpolated_settings_match wc s with
    | none => rfl
    | some id =>
        obtain ⟨h1, h2, h3⟩ := (interp_match_eq_some_iff wc s id).mp hmm
        rcases h1 with h1 | h1
        · exact absurd h1 (h id h2 h3).1
        · exact absurd h1 (h id h2 h3).2
  unfold apply_interp
  dsimp only
  by_cases hsw : starts_with_two_lbrace s = true
  · simp [hsw, hm]
  · simp [hsw]

theorem apply_interp_nonstr (wc : Char → Bool) (attrs : String → Option YVal) (v : YVal)
    (h : ∀ s, v ≠ YVal.str s) : apply_interp wc attrs v = v := by
  cases v with
  | str s => exact absurd rfl (h s)
  | int n => rfl
  | bool b => rfl
  | none => rfl

theorem resolve_leaf_env_on (wc : Char → Bool) (env_pfx : String)
    (env : String → Option String) (attrs : String → Option YVal) (kt : List String)
    (v : YVal) (s : String)
    (hs : env (env_key env_pfx kt) = Option.some s) (hne : s ≠ "") :
    resolve_leaf wc env_pfx env attrs kt v = apply_interp wc attrs (YVal.str s) := by
  unfold resolve_leaf
  rw [hs]
  simp [hne]

theorem resolve_leaf_env_off (wc : Char → Bool) (env_pfx : String)
    (env : String → Option String) (attrs : String → Option YVal) (kt : List String)
    (v : YVal)
    (hs : env (env_key env_pfx kt) = Option.none ∨ env (env_key env_pfx kt) = Option.some "") :
    resolve_leaf wc env_pfx env attrs kt v = apply_interp wc attrs v := by
  unfold resolve_leaf
  rcases hs with h | h
  · rw [h]
  · rw [h]
    simp

/-- C1 (counterexample): with every environment variable set to the
settings-reference string made of braces around x, and settings attribute
x = "W", the resolved leaf is "W", not the verbatim environment string the
claim requires.  (ascii_word instantiates the regex word class; it agrees
with the engine's \w on the ASCII characters involved.) -/
theorem env_override_interpolation_counterexample :
    resolve_leaf ascii_word "P" env_c1 attrs_c1 ["a"] (YVal.int 5) = YVal.str "W" ∧
    resolve_leaf ascii_word "P" env_c1 attrs_c1 ["a"] (YVal.int 5)
      ≠ YVal.str (lb2 ++ "x" ++ rb2) := by
  constructor
  · decide
  · decide

/-- C1 (amended): when the derived environment variable is set and
non-empty, its value replaces the leaf independently of the file value and
with no coercion, but the substituted string then goes through
settings-reference resolution like any other string: an environment value
that the anchored regex matches (the reference form, optionally followed by
one string-final newline which the $ anchor tolerates) is replaced by the
settings attribute, every other environment value is kept verbatim.
Quantified over wc, the regex engine's word class [\w\d_]. -/
theorem env_override_precedence_amended :
    ∀ (wc : Char → Bool) (env_pfx : String) (env : String → Option String)
      (attrs : String → Option YVal) (kt : List String) (v v' : YVal) (s : String),
      env (env_key env_pfx kt) = Option.some s → s ≠ "" →
      (resolve_leaf wc env_pfx env attrs kt v = resolve_leaf wc env_pfx env attrs kt v' ∧
       (∀ id, id ≠ "" → id.data.all wc = true →
          (s = lb2 ++ id ++ rb2 ∨ s = lb2 ++ id ++ rb2 ++ nl1) →
          resolve_leaf wc env_pfx env attrs kt v = (attrs id).getD YVal.none) ∧
       ((∀ id, id ≠ "" → id.data.all wc = true →
          s ≠ lb2 ++ id ++ rb2 ∧ s ≠ lb2 ++ id ++ rb2 ++ nl1) →
          resolve_leaf wc env_pfx env attrs kt v = YVal.str s)) := by
  intro wc env_pfx env attrs kt v v' s hs hne
  refine ⟨?_, ?_, ?_⟩
  · rw [resolve_leaf_env_on wc env_pfx env attrs kt v s hs hne,
      resolve_leaf_env_on wc env_pfx env attrs kt v' s hs hne]
  · intro id h2 h3 hform
    rw [resolve_leaf_env_on wc env_pfx env attrs kt v s hs hne]
    exact apply_interp_ref wc attrs id s hform h2 h3
  · intro hnof
    rw [resolve_leaf_env_on wc env_pfx env attrs kt v s hs hne]
    exact apply_interp_pass wc attrs s hnof

theorem env_override_precedence_amended_witness :
    resolve_leaf ascii_word "P" env_w1 attrs_none ["a"] (YVal.int 3)
      = resolve_leaf ascii_word "P" env_w1 attrs_none ["a"] (YVal.bool true) :=
  (env_override_precedence_amended ascii_word "P" env_w1 attrs_none ["a"] (YVal.int 3)
    (YVal.bool true) "V" rfl (by decide)).1

/-- C6 (counterexample): the $ anchor of the anchored settings-reference
regex also matches just before a string-final newline, so the string made
of braces around x followed by one newline - which is not of the exact
two-brace reference form (its last character is the newline, not a closing
brace) - is nevertheless resolved to the settings attribute x instead of
passing through unchanged. -/
theorem settings_reference_newline_counterexample :
    (lb2 ++ "x" ++ rb2 ++ nl1).data.getLast? = Option.some nl ∧
    resolve_leaf ascii_word "P" env_off attrs_c1 ["a"]
        (YVal.str (lb2 ++ "x" ++ rb2 ++ nl1)) = YVal.str "W" ∧
    YVal.str "W" ≠ YVal.str (lb2 ++ "x" ++ rb2 ++ nl1) := by
  refine ⟨rfl, ?_, ?_⟩
  · decide
  · decide

/-- C6 (amended): for a leaf not overridden by the environment, a string
matched by the anchored reference regex - the exact reference form, or
that form followed by a single string-final newline, with the identifier a
non-empty run of characters of the engine's word class wc - is replaced by
the settings attribute of that name (null when absent); every string
matching neither form passes through unchanged, and non-string leaves are
untouched. -/
theorem settings_reference_resolution :
    ∀ (wc : Char → Bool) (env_pfx : String) (env : String → Option String)
      (attrs : String → Option YVal) (kt : List String),
      (env (env_key env_pfx kt) = Option.none ∨
        env (env_key env_pfx kt) = Option.some "") →
      ((∀ id s, id ≠ "" → id.data.all wc = true →
          (s = lb2 ++ id ++ rb2 ∨ s = lb2 ++ id ++ rb2 ++ nl1) →
          resolve_leaf wc env_pfx env attrs kt (YVal.str s)
            = (attrs id).getD YVal.none) ∧
       (∀ s, (∀ id, id ≠ "" → id.data.all wc = true →
            s ≠ lb2 ++ id ++ rb2 ∧ s ≠ lb2 ++ id ++ rb2 ++ nl1) →
          resolve_leaf wc env_pfx env attrs kt (YVal.str s) = YVal.str s) ∧
       (∀ v, (∀ s, v ≠ YVal.str s) → resolve_leaf wc env_pfx env attrs kt v = v)) := by
  intro wc env_pfx env attrs kt hoff
  refine ⟨?_, ?_, ?_⟩
  · intro id s h2 h3 hform
    rw [resolve_leaf_env_off wc env_pfx env attrs kt _ hoff]
    exact apply_interp_ref wc attrs id s hform h2 h3
  · intro s hnof
    rw [resolve_leaf_env_off wc env_pfx env attrs kt _ hoff]
    exact apply_interp_pass wc attrs s hnof
  · intro v hnostr
    rw [resolve_leaf_env_off wc env_pfx env attrs kt _ hoff]
    exact apply_interp_nonstr wc attrs v hnostr

theorem settings_reference_resolution_witness :
    resolve_leaf ascii_word "P" env_off attrs_c1 ["a"]
      (YVal.str (lb2 ++ "x" ++ rb2)) = YVal.str "W" := by
  have h := (settings_reference_resolution ascii_word "P" env_off attrs_c1 ["a"]
    (Or.inl rfl)).1 "x" (lb2 ++ "x" ++ rb2) (by decide) (by decide) (Or.inl rfl)
  rw [h]
  rfl

theorem to_envvar_go_eq_squash :
    ∀ (n : Nat) (cs : List Char), cs.length ≤ n →
      to_envvar_go false cs = squash_spec cs ∧
      to_envvar_go true cs = squash_spec (cs.dropWhile (fun d => !isAlnumAscii d)) := by
  intro n
  induction n with
  | zero =>
      intro cs h
      have : cs = [] := List.length_eq_zero.mp (Nat.le_zero.mp h)
      subst this
      constructor
      · simp [to_envvar_go, squash_spec]
      · simp [to_envvar_go, squash_spec]
  | succ n ih =>
      intro cs h
      cases cs with
      | nil =>
          constructor
          · simp [to_envvar_go, squash_spec]
          · simp [to_envvar_go, squash_spec]
      | cons c cs' =>
          have h' : cs'.length ≤ n := by
            simp only [List.length_cons] at h
            omega
          by_cases hc : isAlnumAscii c = true
          · constructor
            · rw [show to_envvar_go false (c :: cs') = c :: to_envvar_go false cs' by
                simp [to_envvar_go, hc]]
              rw [show squash_spec (c :: cs') = c :: squash_spec cs' by
                simp [squash_spec, hc]]
              rw [(ih cs' h').1]
            · rw [show to_envvar_go true (c :: cs') = c :: to_envvar_go false cs' by
                simp [to_envvar_go, hc]]
              rw [show (c :: cs').dropWhile (fun d => !isAlnumAscii d) = c :: cs' by
                simp [List.dropWhile_cons, hc]]
              rw [show squash_spec (c :: cs') = c :: squash_spec cs' by
                simp [squash_spec, hc]]
              rw [(ih cs' h').1]
          · have hc' : isAlnumAscii c = false := by
              simpa using hc
            constructor
            · rw [show to_envvar_go false (c :: cs')
                  = '_' :: to_envvar_go true cs' by simp [to_envvar_go, hc']]
              rw [show squash_spec (c :: cs')
                  = '_' :: squash_spec (cs'.dropWhile (fun d => !isAlnumAscii d)) by
                simp [squash_spec, hc']]
              rw [(ih cs' h').2]
            · rw [show to_envvar_go true (c :: cs') = to_envvar_go true cs' by
                simp [to_envvar_go, hc']]
              rw [show (c :: cs').dropWhile (fun d => !isAlnumAscii d)
                  = cs'.dropWhile (fun d => !isAlnumAscii d) by
                simp [List.dropWhile_cons, hc']]
              exact (ih cs' h').2

/-- C7 (counterexample): with prefix p and key path [a], the key the code
computes upper-cases the prefix as well, and differs from the key obtained
by upper-casing before prefixing as the claim states it. -/
theorem env_key_derivation_counterexample :
    env_key "p" ["a"] ≠ spec_env_key "p" ["a"] := by
  have h1 : env_key "p" ["a"] = "PA" := rfl
  have h2 : spec_env_key "p" ["a"] = "pA" := by
    unfold spec_env_key py_join py_upper
    rw [show ("p" ++ String.mk ("a".data.map Char.toUpper)).data = ['p', 'A'] from rfl]
    rw [show squash_spec ['p', 'A'] = ['p', 'A'] by
      rw [show squash_spec ['p', 'A'] = 'p' :: squash_spec ['A'] by
        simp [squash_spec, isAlnumAscii]]
      rw [show squash_spec ['A'] = 'A' :: squash_spec [] by
        simp [squash_spec, isAlnumAscii]]
      simp [squash_spec]]
  rw [h1, h2]
  decide

/-- C7 (amended): the environment lookup key equals the result of joining
the FlatKey's segments with '_', prefixing with the configured prefix,
upper-casing the whole prefixed string, and then replacing every maximal
run of non-alphanumeric characters with a single '_' (the derivation is a
total function; upper-casing happens after prefixing, not before). -/
theorem env_key_derivation_amended :
    ∀ (env_pfx : String) (key_tup : List String),
      env_key env_pfx key_tup
        = String.mk (squash_spec (py_upper (env_pfx ++ py_join "_" key_tup)).data) := by
  intro env_pfx key_tup
  unfold env_key to_envvar
  rw [(to_envvar_go_eq_squash (py_upper (env_pfx ++ py_join "_" key_tup)).data.length
    (py_upper (env_pfx ++ py_join "_" key_tup)).data le_rfl).1]

theorem hasKey_false_lookup_none (m : CMap) (k : String) (h : m.hasKey k = false) :
    m.lookup k = Option.none := by
  induction m with
  | nil => rfl
  | leafCons k' v r ih =>
      simp only [CMap.hasKey, Bool.or_eq_false_iff, beq_eq_false_iff_ne, ne_eq] at h
      simp [CMap.lookup, h.1, ih h.2]
  | nodeCons k' s r ihs ihr =>
      simp only [CMap.hasKey, Bool.or_eq_false_iff, beq_eq_false_iff_ne, ne_eq] at h
      simp [CMap.lookup, h.1, ihr h.2]

theorem append_nil_right (m : CMap) : m.append CMap.nil = m := by
  induction m with
  | nil => rfl
  | leafCons k v r ih => simp [CMap.append, ih]
  | nodeCons k s r ihs ihr => simp [CMap.append, ihr]

theorem hasKey_append (a b : CMap) (k : String) :
    (a.append b).hasKey k = (a.hasKey k || b.hasKey k) := by
  induction a with
  | nil => simp [CMap.append, CMap.hasKey]
  | leafCons k' v r ih => simp [CMap.append, CMap.hasKey, ih, Bool.or_assoc]
  | nodeCons k' s r ihs ihr => simp [CMap.append, CMap.hasKey, ihr, Bool.or_assoc]

theorem lookup_append_right (a b : CMap) (k : String) (h : a.hasKey k = false) :
    (a.append b).lookup k = b.lookup k := by
  induction a with
  | nil => rfl
  | leafCons k' v r ih =>
      simp only [CMap.hasKey, Bool.or_eq_false_iff, beq_eq_false_iff_ne, ne_eq] at h
      simp [CMap.append, CMap.lookup, h.1, ih h.2]
  | nodeCons k' s r ihs ihr =>
      simp only [CMap.hasKey, Bool.or_eq_false_iff, beq_eq_false_iff_ne, ne_eq] at h
      simp [CMap.append, CMap.lookup, h.1, ihr h.2]

theorem consVal_lookup_self (k : String) (v : CVal) (b : CMap) :
    (CMap.consVal k v b).lookup k = Option.some v := by
  cases v with
  | leaf w => simp [CMap.consVal, CMap.lookup]
  | node s => simp [CMap.consVal, CMap.lookup]

theorem setKey_not_mem (a : CMap) (k : String) (v : CVal) (h : a.hasKey k = false) :
    a.setKey k v = a.append (CMap.consVal k v CMap.nil) := by
  induction a with
  | nil => rfl
  | leafCons k' v' r ih =>
      simp only [CMap.hasKey, Bool.or_eq_false_iff, beq_eq_false_iff_ne, ne_eq] at h
      simp [CMap.setKey, CMap.append, h.1, ih h.2]
  | nodeCons k' s' r ihs ihr =>
      simp only [CMap.hasKey, Bool.or_eq_false_iff, beq_eq_false_iff_ne, ne_eq] at h
      simp [CMap.setKey, CMap.append, h.1, ihr h.2]

theorem setKey_at_end (a : CMap) (k : String) (v v' : CVal) (h : a.hasKey k = false) :
    (a.append (CMap.consVal k v CMap.nil)).setKey k v' = a.append (CMap.consVal k v' CMap.nil) := by
  induction a with
  | nil =>
      cases v with
      | leaf w => cases v' with
        | leaf w' => simp [CMap.append, CMap.setKey, CMap.consVal]
        | node s' => simp [CMap.append, CMap.setKey, CMap.consVal]
      | node s => cases v' with
        | leaf w' => simp [CMap.append, CMap.setKey, CMap.consVal]
        | node s' => simp [CMap.append, CMap.setKey, CMap.consVal]
  | leafCons k' w r ih =>
      simp only [CMap.hasKey, Bool.or_eq_false_iff, beq_eq_false_iff_ne, ne_eq] at h
      simp [CMap.append, CMap.setKey, h.1, ih h.2]
  | nodeCons k' s r ihs ihr =>
      simp only [CMap.hasKey, Bool.or_eq_false_iff, beq_eq_false_iff_ne, ne_eq] at h
      simp [CMap.append, CMap.setKey, h.1, ihr h.2]

theorem append_consVal (a : CMap) (k : String) (v : CVal) (b : CMap) :
    (a.append (CMap.consVal k v CMap.nil)).append b = a.append (CMap.consVal k v b) := by
  induction a with
  | nil =>
      cases v with
      | leaf w => simp [CMap.append, CMap.consVal]
      | node s => simp [CMap.append, CMap.consVal]
  | leafCons k' w r ih => simp [CMap.append, ih]
  | nodeCons k' s r ihs ihr => simp [CMap.append, ihr]

theorem insert_into_end_node (a : CMap) (k : String) (sub : CMap) (p : List String)
    (v : YVal) (hp : p ≠ []) (h : a.hasKey k = false) :
    insertPath (a.append (CMap.nodeCons k sub CMap.nil)) (k :: p) v
      = (insertPath sub p v).map (fun s => a.append (CMap.nodeCons k s CMap.nil)) := by
  cases p with
  | nil => exact absurd rfl hp
  | cons q qs =>
      have hlook : (a.append (CMap.nodeCons k sub CMap.nil)).lookup k
          = Option.some (CVal.node sub) := by
        rw [lookup_append_right a _ k h]
        exact consVal_lookup_self k (CVal.node sub) CMap.nil
      simp only [insertPath, hlook]
      have hset : ∀ s : CMap,
          (a.append (CMap.nodeCons k sub CMap.nil)).setKey k (CVal.node s)
            = a.append (CMap.nodeCons k s CMap.nil) := by
        intro s
        exact setKey_at_end a k (CVal.node sub) (CVal.node s) h
      simp only [hset]

theorem insert_create_node (a : CMap) (k : String) (p : List String) (v : YVal)
    (hp : p ≠ []) (h : a.hasKey k = false) :
    insertPath a (k :: p) v
      = (insertPath CMap.nil p v).map (fun s => a.append (CMap.nodeCons k s CMap.nil)) := by
  cases p with
  | nil => exact absurd rfl hp
  | cons q qs =>
      have hlook : a.lookup k = Option.none := hasKey_false_lookup_none a k h
      simp only [insertPath, hlook]
      have hset : ∀ s : CMap,
          a.setKey k (CVal.node s) = a.append (CMap.nodeCons k s CMap.nil) := by
        intro s
        exact setKey_not_mem a k (CVal.node s) h
      simp only [hset]

theorem fold_insert_lift (l : List (List String × YVal))
    (hnp : ∀ pv ∈ l, pv.1 ≠ ([] : List String)) :
    ∀ (sub : CMap) (a : CMap) (k : String), a.hasKey k = false →
    (l.map (fun pv => (k :: pv.1, pv.2))).foldlM insertStep
        (a.append (CMap.nodeCons k sub CMap.nil))
      = (l.foldlM insertStep sub).map (fun s => a.append (CMap.nodeCons k s CMap.nil)) := by
  induction l with
  | nil =>
      intro sub a k h
      simp [List.foldlM_nil]
  | cons pv l' ih =>
      intro sub a k h
      have hp : pv.1 ≠ ([] : List String) := hnp pv (List.mem_cons_self pv l')
      have hnp' : ∀ pw ∈ l', pw.1 ≠ ([] : List String) :=
        fun pw hw => hnp pw (List.mem_cons_of_mem pv hw)
      rw [List.map_cons, List.foldlM_cons, List.foldlM_cons]
      have hstep : insertStep (a.append (CMap.nodeCons k sub CMap.nil)) (k :: pv.1, pv.2)
          = (insertPath sub pv.1 pv.2).map (fun s => a.append (CMap.nodeCons k s CMap.nil)) := by
        unfold insertStep
        exact insert_into_end_node a k sub pv.1 pv.2 hp h
      rw [hstep]
      cases hi : insertPath sub pv.1 pv.2 with
      | none =>
          simp [insertStep, hi]
      | some s1 =>
          simp only [Option.map_some', Option.some_bind, insertStep, hi]
          exact ih hnp' s1 a k h

theorem fold_insert_create (l : List (List String × YVal)) (hne : l ≠ [])
    (hnp : ∀ pv ∈ l, pv.1 ≠ ([] : List String)) (a : CMap) (k : String)
    (h : a.hasKey k = false) :
    (l.map (fun pv => (k :: pv.1, pv.2))).foldlM insertStep a
      = (l.foldlM insertStep CMap.nil).map
          (fun s => a.append (CMap.nodeCons k s CMap.nil)) := by
  cases l with
  | nil => exact absurd rfl hne
  | cons pv l' =>
      have hp : pv.1 ≠ ([] : List String) := hnp pv (List.mem_cons_self pv l')
      have hnp' : ∀ pw ∈ l', pw.1 ≠ ([] : List String) :=
        fun pw hw => hnp pw (List.mem_cons_of_mem pv hw)
      rw [List.map_cons, List.foldlM_cons, List.foldlM_cons]
      have hstep : insertStep a (k :: pv.1, pv.2)
          = (insertPath CMap.nil pv.1 pv.2).map
              (fun s => a.append (CMap.nodeCons k s CMap.nil)) := by
        unfold insertStep
        exact insert_create_node a k pv.1 pv.2 hp h
      rw [hstep]
      cases hi : insertPath CMap.nil pv.1 pv.2 with
      | none =>
          simp [insertStep, hi]
      | some s1 =>
          simp only [Option.map_some', Option.some_bind, insertStep, hi]
          exact fold_insert_lift l' hnp' s1 a k h

theorem map_path_comp (l : List (List String × YVal)) (a b : List String) :
    (l.map (fun pv => (a ++ pv.1, pv.2))).map (fun pv => (b ++ pv.1, pv.2))
      = l.map (fun pv => ((b ++ a) ++ pv.1, pv.2)) := by
  rw [List.map_map]
  apply List.map_congr_left
  intro pv _
  simp [List.append_assoc]

theorem flattenMap_pre (m : CMap) : ∀ pre, flattenMap pre m
    = (flattenMap [] m).map (fun pv => (pre ++ pv.1, pv.2)) := by
  induction m with
  | nil => intro pre; simp [flattenMap]
  | leafCons k v r ih =>
      intro pre
      simp only [flattenMap, List.nil_append, List.map_cons]
      rw [ih pre]
  | nodeCons k sub r ihs ihr =>
      intro pre
      simp only [flattenMap, List.nil_append, List.map_append]
      rw [ihs (pre ++ [k]), ihs [k], ihr pre, map_path_comp]

theorem flattenMap_paths_ne_nil (m : CMap) :
    ∀ pv ∈ flattenMap [] m, pv.1 ≠ ([] : List String) := by
  induction m with
  | nil => simp [flattenMap]
  | leafCons k v r ih =>
      intro pv hpv
      simp only [flattenMap, List.nil_append, List.mem_cons] at hpv
      rcases hpv with h | h
      · rw [h]
        simp
      · exact ih pv h
  | nodeCons k sub r ihs ihr =>
      intro pv hpv
      simp only [flattenMap, List.nil_append, List.mem_append] at hpv
      rcases hpv with h | h
      · rw [flattenMap_pre sub [k]] at h
        obtain ⟨pw, _, hpw⟩ := List.mem_map.mp h
        rw [← hpw]
        simp
      · exact ihr pv h

theorem flattenMap_ne_nil (m : CMap) : ∀ pre, m.wfB = true → m.isNil = false →
    flattenMap pre m ≠ [] := by
  induction m with
  | nil =>
      intro pre _ hn
      simp [CMap.isNil] at hn
  | leafCons k v r ih =>
      intro pre _ _
      simp [flattenMap]
  | nodeCons k sub r ihs ihr =>
      intro pre hw _
      simp only [CMap.wfB, Bool.and_eq_true, Bool.not_eq_true'] at hw
      have hsub : flattenMap (pre ++ [k]) sub ≠ [] :=
        ihs (pre ++ [k]) hw.1.2 hw.1.1.2
      simp only [flattenMap]
      intro hc
      exact hsub (List.append_eq_nil.mp hc).1

theorem fold_insert_flattenMap (m : CMap) : ∀ (a : CMap), m.wfB = true →
    (∀ k, m.hasKey k = true → a.hasKey k = false) →
    (flattenMap [] m).foldlM insertStep a = Option.some (a.append m) := by
  induction m with
  | nil =>
      intro a _ _
      simp [flattenMap, List.foldlM_nil, append_nil_right]
  | leafCons k v r ih =>
      intro a hw hdisj
      simp only [CMap.wfB, Bool.and_eq_true, Bool.not_eq_true'] at hw
      have hak : a.hasKey k = false := hdisj k (by simp [CMap.hasKey])
      simp only [flattenMap, List.nil_append, List.foldlM_cons]
      have h1 : insertStep a ([k], v) = Option.some (a.append (CMap.leafCons k v CMap.nil)) := by
        unfold insertStep
        simp only [insertPath]
        rw [setKey_not_mem a k (CVal.leaf v) hak]
        rfl
      rw [h1]
      simp only [Option.bind_eq_bind, Option.some_bind]
      have hdisj' : ∀ k', r.hasKey k' = true →
          (a.append (CMap.leafCons k v CMap.nil)).hasKey k' = false := by
        intro k' hk'
        rw [hasKey_append]
        have ha' : a.hasKey k' = false := hdisj k' (by simp [CMap.hasKey, hk'])
        have hkk' : (k == k') = false := by
          apply beq_eq_false_iff_ne.mpr
          intro heq
          rw [← heq] at hk'
          rw [hw.1] at hk'
          exact Bool.false_ne_true hk'
        simp [CMap.hasKey, ha', hkk']
      rw [ih (a.append (CMap.leafCons k v CMap.nil)) hw.2 hdisj']
      rw [show CMap.leafCons k v CMap.nil = CMap.consVal k (CVal.leaf v) CMap.nil from rfl]
      rw [append_consVal]
      rfl
  | nodeCons k sub r ihs ihr =>
      intro a hw hdisj
      simp only [CMap.wfB, Bool.and_eq_true, Bool.not_eq_true'] at hw
      have hak : a.hasKey k = false := hdisj k (by simp [CMap.hasKey])
      simp only [flattenMap, List.nil_append]
      rw [flattenMap_pre sub [k]]
      rw [show (fun pv : List String × YVal => (([k] : List String) ++ pv.1, pv.2))
          = (fun pv : List String × YVal => (k :: pv.1, pv.2)) from rfl]
      rw [List.foldlM_append]
      rw [fold_insert_create (flattenMap [] sub)
        (flattenMap_ne_nil sub [] hw.1.2 hw.1.1.2)
        (flattenMap_paths_ne_nil sub) a k hak]
      rw [ihs CMap.nil hw.1.2 (fun k' _ => rfl)]
      rw [show CMap.nil.append sub = sub from rfl]
      simp only [Option.map_some', Option.bind_eq_bind, Option.some_bind]
      have hdisj' : ∀ k', r.hasKey k' = true →
          (a.append (CMap.nodeCons k sub CMap.nil)).hasKey k' = false := by
        intro k' hk'
        rw [hasKey_append]
        have ha' : a.hasKey k' = false := hdisj k' (by simp [CMap.hasKey, hk'])
        have hkk' : (k == k') = false := by
          apply beq_eq_false_iff_ne.mpr
          intro heq
          rw [← heq] at hk'
          rw [hw.1.1.1] at hk'
          exact Bool.false_ne_true hk'
        simp [CMap.hasKey, ha', hkk']
      rw [ihr (a.append (CMap.nodeCons k sub CMap.nil)) hw.2 hdisj']
      rw [show CMap.nodeCons k sub CMap.nil = CMap.consVal k (CVal.node sub) CMap.nil from rfl]
      rw [append_consVal]
      rfl

/-- C3 (counterexample): a mapping holding one empty sub-mapping has unique
leaf paths and no prefix collision vacuously (it flattens to the empty flat
dict), yet reassembly yields the empty mapping, not the original: the
round trip fails on trees with empty sub-mappings. -/
theorem flatten_round_trip_counterexample :
    m_empty_node.nodupKeys = true ∧
    dict_to_flatdict m_empty_node = [] ∧
    flatdict_to_dict (dict_to_flatdict m_empty_node) = Option.some CMap.nil ∧
    flatdict_to_dict (dict_to_flatdict m_empty_node) ≠ Option.some m_empty_node := by
  refine ⟨rfl, rfl, rfl, ?_⟩
  decide

/-- C3 (amended): for every nested mapping with unique keys at every level
and no empty sub-mapping, unflattening the flattening returns the original
mapping: flatdict_to_dict (dict_to_flatdict m) = some m. -/
theorem flatten_unflatten_round_trip :
    ∀ m : CMap, m.wfB = true → flatdict_to_dict (dict_to_flatdict m) = Option.some m := by
  intro m hw
  unfold flatdict_to_dict dict_to_flatdict
  rw [fold_insert_flattenMap m CMap.nil hw (fun _ _ => rfl)]
  rfl

theorem flatten_unflatten_round_trip_witness :
    flatdict_to_dict (dict_to_flatdict m_round) = Option.some m_round :=
  flatten_unflatten_round_trip m_round (by decide)

theorem set_get_same (lgs : List (String × LoggerState)) (name : String) (st : LoggerState) :
    getLoggerState (setLoggerState lgs name st) name = st := by
  induction lgs with
  | nil => simp [getLoggerState, setLoggerState, List.find?]
  | cons p rest ih =>
      by_cases hp : p.1 == name
      · simp [setLoggerState, hp, getLoggerState, List.find?]
      · simp only [setLoggerState, hp]
        simp only [Bool.false_eq_true, if_false]
        simp only [getLoggerState, List.find?] at ih ⊢
        rw [show (p.1 == name) = false by simpa using hp]
        exact ih

theorem set_get_other (lgs : List (String × LoggerState)) (name other : String)
    (st : LoggerState) (h : other ≠ name) :
    getLoggerState (setLoggerState lgs name st) other = getLoggerState lgs other := by
  induction lgs with
  | nil =>
      simp [getLoggerState, setLoggerState, List.find?,
        show (name == other) = false by simpa using fun hc => h hc.symm]
  | cons p rest ih =>
      by_cases hp : p.1 == name
      · have hpn : p.1 = name := by simpa using hp
        simp only [setLoggerState, hp, if_true]
        simp only [getLoggerState, List.find?]
        rw [show (p.1 == other) = false by
          simp only [beq_eq_false_iff_ne, ne_eq]
          intro hc
          exact h (by rw [← hc, hpn])]
      · simp only [setLoggerState, hp]
        simp only [Bool.false_eq_true, if_false]
        simp only [getLoggerState, List.find?] at ih ⊢
        cases hq : (p.1 == other) with
        | true => rfl
        | false => exact ih

theorem addHandler_level (s : LoggerState) (h : Nat) : (addHandler s h).level = s.level := by
  unfold addHandler
  split <;> rfl

theorem addHandler_propagate (s : LoggerState) (h : Nat) :
    (addHandler s h).propagate = s.propagate := by
  unfold addHandler
  split <;> rfl

theorem addHandler_mem (s : LoggerState) (h h0 : Nat) (hm : h0 ∈ s.handlers) :
    h0 ∈ (addHandler s h).handlers := by
  unfold addHandler
  split
  · exact hm
  · simp only [List.mem_append]
    exact Or.inl hm

theorem addHandler_mem_self (s : LoggerState) (h : Nat) : h ∈ (addHandler s h).handlers := by
  unfold addHandler
  split_ifs with hc
  · exact hc
  · simp

theorem copy_step_level (extra s : LoggerState) (h : Nat) :
    (copy_step extra s h).level = if s.level = NOTSET then extra.level else s.level := by
  unfold copy_step
  by_cases hl : (addHandler s h).level = NOTSET
  · rw [addHandler_level] at hl
    simp [addHandler_level, hl]
  · rw [addHandler_level] at hl
    simp [addHandler_level, hl]

theorem copy_step_propagate (extra s : LoggerState) (h : Nat) :
    (copy_step extra s h).propagate = extra.propagate := by
  unfold copy_step
  by_cases hl : (addHandler s h).level = NOTSET
  · simp [hl]
  · simp [hl]

theorem copy_step_handlers (extra s : LoggerState) (h : Nat) :
    (copy_step extra s h).handlers = (addHandler s h).handlers := by
  unfold copy_step
  by_cases hl : (addHandler s h).level = NOTSET
  · simp [hl]
  · simp [hl]

theorem copy_fold_level (extra : LoggerState) :
    ∀ (l : List Nat) (s : LoggerState), l ≠ [] →
      (l.foldl (copy_step extra) s).level
        = if s.level = NOTSET then extra.level else s.level := by
  intro l
  induction l with
  | nil => intro s h; exact absurd rfl h
  | cons h t ih =>
      intro s _
      rw [List.foldl_cons]
      cases t with
      | nil =>
          rw [List.foldl_nil]
          exact copy_step_level extra s h
      | cons h2 t2 =>
          rw [ih (copy_step extra s h) (by simp)]
          rw [copy_step_level]
          by_cases hs : s.level = NOTSET
          · by_cases he : extra.level = NOTSET
            · simp [hs, he]
            · simp [hs, he]
          · simp [hs]

theorem copy_fold_propagate (extra : LoggerState) :
    ∀ (l : List Nat) (s : LoggerState), l ≠ [] →
      (l.foldl (copy_step extra) s).propagate = extra.propagate := by
  intro l
  induction l with
  | nil => intro s h; exact absurd rfl h
  | cons h t ih =>
      intro s _
      rw [List.foldl_cons]
      cases t with
      | nil =>
          rw [List.foldl_nil]
          exact copy_step_propagate extra s h
      | cons h2 t2 =>
          exact ih (copy_step extra s h) (by simp)

theorem copy_fold_mem_mono (extra : LoggerState) :
    ∀ (l : List Nat) (s : LoggerState) (h0 : Nat), h0 ∈ s.handlers →
      h0 ∈ (l.foldl (copy_step extra) s).handlers := by
  intro l
  induction l with
  | nil => intro s h0 hm; exact hm
  | cons h t ih =>
      intro s h0 hm
      rw [List.foldl_cons]
      apply ih
      rw [copy_step_handlers]
      exact addHandler_mem s h h0 hm

theorem copy_fold_mem_all (extra : LoggerState) :
    ∀ (l : List Nat) (s : LoggerState) (h0 : Nat), h0 ∈ l →
      h0 ∈ (l.foldl (copy_step extra) s).handlers := by
  intro l
  induction l with
  | nil => intro s h0 hm; exact absurd hm (List.not_mem_nil h0)
  | cons h t ih =>
      intro s h0 hm
      rw [List.foldl_cons]
      rcases List.mem_cons.mp hm with h1 | h1
      · apply copy_fold_mem_mono
        rw [copy_step_handlers, h1]
        exact addHandler_mem_self s h
      · exact ih (copy_step extra s h) h0 h1

theorem copy_fold_get_preserve (extra : LoggerState) (name : String) :
    ∀ (l : List String) (lgs : List (String × LoggerState)), name ∉ l →
      getLoggerState
        (l.foldl (fun lgs n => setLoggerState lgs n (copy_one extra (getLoggerState lgs n))) lgs)
        name
        = getLoggerState lgs name := by
  intro l
  induction l with
  | nil => intro lgs _; rfl
  | cons n t ih =>
      intro lgs hn
      rw [List.foldl_cons]
      have hne : name ≠ n := fun hc => hn (by rw [hc]; exact List.mem_cons_self n t)
      rw [ih _ (fun hc => hn (List.mem_cons_of_mem n hc))]
      exact set_get_other lgs n name _ hne

theorem copy_extra_loggers_get (sys : LogSys) (names : List String) (name : String)
    (hnd : names.Nodup) (hmem : name ∈ names) :
    getLoggerState (copy_extra_loggers names sys).loggers name
      = copy_one (getLoggerState sys.loggers prefect_extra_name)
          (getLoggerState sys.loggers name) := by
  obtain ⟨l1, l2, rfl⟩ := List.append_of_mem hmem
  have hmid := List.nodup_middle.mp hnd
  have hnotin : name ∉ l1 ++ l2 := (List.nodup_cons.mp hmid).1
  have hn1 : name ∉ l1 := fun hc => hnotin (List.mem_append.mpr (Or.inl hc))
  have hn2 : name ∉ l2 := fun hc => hnotin (List.mem_append.mpr (Or.inr hc))
  unfold copy_extra_loggers
  simp only [List.foldl_append, List.foldl_cons]
  rw [copy_fold_get_preserve _ name l2 _ hn2]
  rw [set_get_same]
  rw [copy_fold_get_preserve _ name l1 sys.loggers hn1]

/-- C4 (counterexample): when the prefect.extra template logger has an
empty handler list, nothing is copied at all: a fresh extra logger keeps
the default level and propagation flag even though the template's
propagation flag is off and its level is set. -/
theorem extra_logger_empty_handlers_counterexample :
    (getLoggerState sys_c4.loggers prefect_extra_name).handlers = [] ∧
    (getLoggerState sys_c4.loggers prefect_extra_name).propagate = false ∧
    (getLoggerState sys_c4.loggers prefect_extra_name).level = 10 ∧
    getLoggerState (copy_extra_loggers ["vendor.lib"] sys_c4).loggers "vendor.lib"
      = defaultLogger := by
  refine ⟨rfl, rfl, rfl, ?_⟩
  rfl

/-- C4 (amended): on a first apply, for every logger name returned by
settings.get_extra_loggers(), provided the prefect.extra template logger
has at least one handler, setup_logging attaches every template handler to
that logger, copies the template's level exactly when the target's level is
NOTSET, and copies the template's propagation flag.  (With an empty
template handler list nothing is copied, since the level and propagation
copies sit inside the per-handler loop.) -/
theorem extra_logger_copy_amended :
    ∀ (sys : LogSys) (names : List String) (name : String),
      names.Nodup → name ∈ names →
      (getLoggerState sys.loggers prefect_extra_name).handlers ≠ [] →
      ((∀ h, h ∈ (getLoggerState sys.loggers prefect_extra_name).handlers →
          h ∈ (getLoggerState (copy_extra_loggers names sys).loggers name).handlers) ∧
       (getLoggerState (copy_extra_loggers names sys).loggers name).level
         = (if (getLoggerState sys.loggers name).level = NOTSET
            then (getLoggerState sys.loggers prefect_extra_name).level
            else (getLoggerState sys.loggers name).level) ∧
       (getLoggerState (copy_extra_loggers names sys).loggers name).propagate
         = (getLoggerState sys.loggers prefect_extra_name).propagate) := by
  intro sys names name hnd hmem hne
  rw [copy_extra_loggers_get sys names name hnd hmem]
  unfold copy_one
  refine ⟨?_, ?_, ?_⟩
  · intro h hh
    exact copy_fold_mem_all _ _ _ h hh
  · exact copy_fold_level _ _ _ hne
  · exact copy_fold_propagate _ _ _ hne

theorem extra_logger_copy_amended_witness :
    7 ∈ (getLoggerState (copy_extra_loggers ["vendor.lib"] sys_w4).loggers
        "vendor.lib").handlers ∧
    (getLoggerState (copy_extra_loggers ["vendor.lib"] sys_w4).loggers
        "vendor.lib").level = 10 ∧
    (getLoggerState (copy_extra_loggers ["vendor.lib"] sys_w4).loggers
        "vendor.lib").propagate = false := by
  have h := extra_logger_copy_amended sys_w4 ["vendor.lib"] "vendor.lib"
    (by simp) (by simp) (by decide)
  refine ⟨h.1 7 (by decide), ?_, ?_⟩
  · rw [h.2.1]
    decide
  · rw [h.2.2]
    decide

theorem entries_hasKey (m : CMap) : ∀ kv ∈ m.entries, m.hasKey kv.1 = true := by
  induction m with
  | nil => simp [CMap.entries]
  | leafCons k v r ih =>
      intro kv hkv
      simp only [CMap.entries, List.mem_cons] at hkv
      rcases hkv with h | h
      · rw [h]
        simp [CMap.hasKey]
      · simp [CMap.hasKey, ih kv h]
  | nodeCons k s r ihs ihr =>
      intro kv hkv
      simp only [CMap.entries, List.mem_cons] at hkv
      rcases hkv with h | h
      · rw [h]
        simp [CMap.hasKey]
      · simp [CMap.hasKey, ihr kv h]

theorem self_lookup_of_nodup (m : CMap) (hnd : m.nodupKeys = true) :
    ∀ kv ∈ m.entries, m.lookup kv.1 = Option.some kv.2 := by
  induction m with
  | nil => simp [CMap.entries]
  | leafCons k v r ih =>
      simp only [CMap.nodupKeys, Bool.and_eq_true, Bool.not_eq_true'] at hnd
      intro kv hkv
      simp only [CMap.entries, List.mem_cons] at hkv
      rcases hkv with h | h
      · rw [h]
        simp [CMap.lookup]
      · have hk : kv.1 ≠ k := by
          intro hc
          have := entries_hasKey r kv h
          rw [hc, hnd.1] at this
          exact Bool.false_ne_true this
        simp only [CMap.lookup]
        rw [if_neg (fun hc => hk hc.symm)]
        exact ih hnd.2 kv h
  | nodeCons k s r ihs ihr =>
      simp only [CMap.nodupKeys, Bool.and_eq_true, Bool.not_eq_true'] at hnd
      intro kv hkv
      simp only [CMap.entries, List.mem_cons] at hkv
      rcases hkv with h | h
      · rw [h]
        simp [CMap.lookup]
      · have hk : kv.1 ≠ k := by
          intro hc
          have := entries_hasKey r kv h
          rw [hc, hnd.1.1] at this
          exact Bool.false_ne_true this
        simp only [CMap.lookup]
        rw [if_neg (fun hc => hk hc.symm)]
        exact ihr hnd.2 kv h

theorem config_diff_nil_of_agree (stored : CMap) :
    ∀ (c : CMap), (∀ kv ∈ c.entries, stored.lookup kv.1 = Option.some kv.2) →
      config_diff stored c = Except.ok CMap.nil := by
  intro c
  induction c with
  | nil => intro _; rfl
  | leafCons k v r ih =>
      intro hagree
      have hk : stored.lookup k = Option.some (CVal.leaf v) :=
        hagree (k, CVal.leaf v) (by simp [CMap.entries])
      have hr : config_diff stored r = Except.ok CMap.nil :=
        ih (fun kv hkv => hagree kv (by simp [CMap.entries, hkv]))
      simp [config_diff, hk, hr]
  | nodeCons k s r ihs ihr =>
      intro hagree
      have hk : stored.lookup k = Option.some (CVal.node s) :=
        hagree (k, CVal.node s) (by simp [CMap.entries])
      have hr : config_diff stored r = Except.ok CMap.nil :=
        ihr (fun kv hkv => hagree kv (by simp [CMap.entries, hkv]))
      simp [config_diff, hk, hr]

theorem setup_no_warn_of_diff_nil (w : World) (s : LoggingSettings) (st : SetupState)
    (stored c : CMap) (hst : st.process_config = Option.some stored)
    (hne : stored ≠ CMap.nil) (hres : resolve_config w s = Except.ok c)
    (hdiff : config_diff stored c = Except.ok CMap.nil) :
    setup_logging w s st = Except.ok st := by
  unfold setup_logging
  rw [hres]
  have htr : truthy st.process_config = true := by
    rw [hst]
    cases stored with
    | nil => exact absurd rfl hne
    | leafCons k v r => rfl
    | nodeCons k m r => rfl
  rw [htr, hst]
  simp only [Option.getD_some, hdiff]
  simp

/-- C9 (confirmed): when the process-wide configuration is already set, the
conflict diff iterates only over the new configuration's top-level entries,
so a second call whose resolved configuration agrees with the stored one on
every key it contains (in particular one that merely drops stored keys)
produces an empty diff and returns with no warning, no apply, and no state
change. -/
theorem repeated_setup_diff_new_keys_only :
    ∀ (w : World) (s : LoggingSettings) (st : SetupState) (stored c : CMap),
      st.process_config = Option.some stored → stored ≠ CMap.nil →
      resolve_config w s = Except.ok c →
      (∀ kv ∈ c.entries, stored.lookup kv.1 = Option.some kv.2) →
      setup_logging w s st = Except.ok st := by
  intro w s st stored c hst hne hres hagree
  exact setup_no_warn_of_diff_nil w s st stored c hst hne hres
    (config_diff_nil_of_agree stored c hagree)

theorem repeated_setup_diff_new_keys_only_witness :
    setup_logging w_c9 s_plain st_c9 = Except.ok st_c9 := by
  apply repeated_setup_diff_new_keys_only w_c9 s_plain st_c9 stored_c9
    (CMap.leafCons "a" (YVal.int 1) CMap.nil) rfl (by decide) rfl
  intro kv hkv
  simp only [CMap.entries, List.mem_cons, List.not_mem_nil, or_false] at hkv
  rw [hkv]
  rfl

/-- C5 (counterexample): when the first resolved configuration is the empty
mapping, the stored process-wide state is falsy, so a second identical call
bypasses the guard and applies the configuration again (the dictConfig
record grows), contradicting apply-nothing idempotence for the empty
mapping. -/
theorem setup_idempotent_empty_counterexample :
    setup_logging w_empty s_plain st_fresh = Except.ok st_after_empty ∧
    setup_logging w_empty s_plain st_after_empty = Except.ok st_after_empty2 ∧
    st_after_empty2.sys.applied ≠ st_after_empty.sys.applied := by
  refine ⟨rfl, rfl, by decide⟩

/-- C5 (amended): after a first apply of a non-empty resolved
configuration, every later call that resolves to the identical
configuration applies nothing, emits no warning, and leaves the whole
process state unchanged.  (For the empty mapping the guard is bypassed:
see the counterexample.) -/
theorem setup_idempotent_nonempty :
    ∀ (w : World) (s : LoggingSettings) (st : SetupState) (c : CMap),
      st.process_config = Option.some c → c ≠ CMap.nil → c.nodupKeys = true →
      resolve_config w s = Except.ok c →
      setup_logging w s st = Except.ok st := by
  intro w s st c hst hne hnd hres
  exact setup_no_warn_of_diff_nil w s st c c hst hne hres
    (config_diff_nil_of_agree c c (self_lookup_of_nodup c hnd))

theorem setup_idempotent_nonempty_witness :
    setup_logging w_w5 s_plain st_w5 = Except.ok st_w5 :=
  setup_idempotent_nonempty w_w5 s_plain st_w5 c_w5 rfl (by decide) (by decide) rfl

/-- C2 (code bug): with stored configuration a = 1 and a second call
resolving to a = 1, b = 2, the conflict diff evaluates
PROCESS_LOGGING_CONFIG[b] for the new top-level key b and raises KeyError
instead of warning; the claim (and the code's own "only warn if the config
differs" comment) say no error should escape. -/
theorem setup_conflict_new_key_raises :
    setup_logging w_c2 s_plain st_c2 = Except.error (Err.keyError "b") := rfl

/-- C10 (confirmed): the already-configured guard tests the stored mapping
for Python truthiness, so when the stored configuration is the empty
mapping a later setup_logging call takes the apply branch: it hands the new
configuration to dictConfig and overwrites the process-wide state with it. -/
theorem empty_config_guard_bypass :
    ∀ (w : World) (s : LoggingSettings) (st : SetupState) (c : CMap),
      st.process_config = Option.some CMap.nil → resolve_config w s = Except.ok c →
      (setup_logging w s st = Except.ok (apply_branch s st c) ∧
       (apply_branch s st c).process_config = Option.some c ∧
       (apply_branch s st c).sys.applied = st.sys.applied ++ [c]) := by
  intro w s st c hst hres
  refine ⟨?_, rfl, rfl⟩
  unfold setup_logging
  rw [hres]
  have htr : truthy st.process_config = false := by
    rw [hst]
    rfl
  rw [htr]
  simp

theorem empty_config_guard_bypass_witness :
    setup_logging w_c9 s_plain st_empty_stored
      = Except.ok (apply_branch s_plain st_empty_stored
          (CMap.leafCons "a" (YVal.int 1) CMap.nil)) :=
  (empty_config_guard_bypass w_c9 s_plain st_empty_stored
    (CMap.leafCons "a" (YVal.int 1) CMap.nil) rfl rfl).1

/-- C8 (confirmed): when the configured settings_path does not exist the
bundled default path is read instead; when the file finally read is also
absent, the missing-file error escapes setup_logging; when the file exists
but its content fails to parse as a mapping, the parse error escapes
setup_logging. -/
theorem setup_surfaces_file_errors :
    ∀ (w : World) (s : LoggingSettings) (st : SetupState),
      ((w.fs s.settings_path = Option.none →
          resolve_config w s = load_logging_config w s DEFAULT_LOGGING_SETTINGS_PATH) ∧
       (w.fs s.settings_path = Option.none →
          w.fs DEFAULT_LOGGING_SETTINGS_PATH = Option.none →
          setup_logging w s st = Except.error Err.notFound) ∧
       (∀ txt, w.fs (chosen_path w s) = Option.some txt →
          w.parse txt = Except.error Err.parseError →
          setup_logging w s st = Except.error Err.parseError)) := by
  intro w s st
  refine ⟨?_, ?_, ?_⟩
  · intro h1
    unfold resolve_config chosen_path
    rw [h1]
    rfl
  · intro h1 h2
    unfold setup_logging resolve_config chosen_path load_logging_config read_text
    rw [h1]
    simp [h2]
  · intro txt h1 h2
    unfold setup_logging resolve_config load_logging_config read_text
    rw [h1]
    simp [h2]

theorem setup_surfaces_file_errors_witness :
    setup_logging w_nofs s_plain st_fresh = Except.error Err.notFound :=
  (setup_surfaces_file_errors w_nofs s_plain st_fresh).2.1 rfl rfl
